import Mathlib

set_option autoImplicit false

/-!
Verification development for the file-backed repository module
(code/client/munkilib/munkirepo/NewFileRepo.py).

Shallow embedding conventions:
* Python byte strings are modeled as lists of characters (PStr).
* The filesystem is an explicit tree of directories and files; every
  filesystem primitive used by the code (os.path.exists, os.mkdir,
  os.makedirs, os.rmdir, os.remove, os.walk, open/read/write,
  shutil.copyfile) is modeled as a pure function on that tree.
* External effects that the module merely invokes (the NetFS mount call,
  subprocess.call of the mount tools, terminal input, os.strerror and the
  host errno constants) are supplied by a World record; the code under
  test only inspects their results, exactly as the Python does.
* Exceptions are modeled with Except; the distinct Python exception
  classes become constructors of PyErr.  The undefined name raised by the
  final existence check of connect (the source writes
  "raise SomeSortOfError") is modeled as the constructor rootUnavailable.
-/

/-- Python byte strings (py2 str) as lists of characters. -/
abbrev PStr := List Char

/-- Literal helper: a Lean string literal viewed as a PStr. -/
def pstr (s : String) : PStr := s.toList

/-- Python s.startswith(p). -/
def startswith : PStr → PStr → Bool
  | _, [] => true
  | [], _ :: _ => false
  | c :: s, d :: p => c == d && startswith s p

/-- Does the string end with a slash (Python s.endswith with one slash)? -/
def endswithSlash : PStr → Bool
  | [] => false
  | [c] => c == '/'
  | _ :: c :: s => endswithSlash (c :: s)

/-- Python s.lstrip with the character set consisting of the slash. -/
def lstripSlash : PStr → PStr
  | [] => []
  | c :: s => if c == '/' then lstripSlash s else c :: s

/-- Python s.rstrip with the character set consisting of the slash. -/
def rstripSlash (s : PStr) : PStr := (lstripSlash s.reverse).reverse

/-- Substring containment (Python "t in s" on strings). -/
def containsSeq (s t : PStr) : Bool :=
  match s with
  | [] => startswith [] t
  | c :: s2 => startswith (c :: s2) t || containsSeq s2 t

/-- Split a string at every slash (Python s.split with a slash). -/
def splitSlash : PStr → List PStr
  | [] => [[]]
  | c :: rest =>
      if c == '/' then [] :: splitSlash rest
      else
        match splitSlash rest with
        | [] => [[c]]
        | g :: gs => (c :: g) :: gs

/-- Nonempty path components of a path string.  Paths in the module are
absolute; repeated separators are collapsed as the OS would. -/
def comps (p : PStr) : List PStr := (splitSlash p).filter (fun s => !(s.isEmpty))

/-- posixpath.join for two components, as the source calls os.path.join:
an absolute second component discards the first. -/
def ospathjoin (a b : PStr) : PStr :=
  if startswith b (pstr "/") then b
  else if a.isEmpty || endswithSlash a then a ++ b
  else a ++ '/' :: b

/-- posixpath.dirname: everything up to the last slash, with trailing
slashes stripped unless the head is all slashes. -/
def dirname (p : PStr) : PStr :=
  let base := (p.reverse.takeWhile (fun c => !(c == '/'))).reverse
  let head := p.take (p.length - base.length)
  if !(head.isEmpty) && !(head.all (fun c => c == '/')) then rstripSlash head
  else head

/-- Python str(i) for an integer. -/
def intToPy (i : Int) : PStr := (toString i).toList

/-- Split a string at the first occurrence of a character, if any
(Python s.split(ch, 1) and also s.find(ch)). -/
def splitOnceAt (t : Char) : PStr → Option (PStr × PStr)
  | [] => none
  | c :: s =>
      if c == t then some ([], s)
      else (splitOnceAt t s).map (fun pr => (c :: pr.1, pr.2))

/-- Characters allowed in a URL scheme (urlparse.scheme_chars). -/
def schemeChar (c : Char) : Bool :=
  c.isAlpha || c.isDigit || c == '+' || c == '-' || c == '.'

/-- The scheme-extraction step of urlparse.urlsplit (Python 2.7): the part
before the first colon is the scheme when it is nonempty, made of scheme
characters, and the remainder is not a bare port number. -/
def urlsplitScheme (url : PStr) : PStr × PStr :=
  match splitOnceAt ':' url with
  | none => ([], url)
  | some (before, after) =>
      if !(before.isEmpty) && before.all schemeChar &&
         (after.isEmpty || !(after.all Char.isDigit)) then
        (before.map Char.toLower, after)
      else ([], url)

/-- The netloc-extraction step of urlparse.urlsplit: after a leading
double slash, the netloc extends to the next slash, question mark or
hash. -/
def splitNetloc (rest : PStr) : PStr × PStr :=
  if startswith rest (pstr "//") then
    let r2 := rest.drop 2
    let netloc := r2.takeWhile (fun c => !(c == '/') && !(c == '?') && !(c == '#'))
    (netloc, r2.drop netloc.length)
  else ([], rest)

/-- Parsed URL pieces, as urlparse.urlparse returns them.  The params
split does not apply to the schemes this module handles, so it is not
modeled. -/
structure URLParts where
  scheme : PStr
  netloc : PStr
  path : PStr
  query : PStr
  fragment : PStr
deriving Repr, DecidableEq

/-- urlparse.urlparse (Python 2.7) restricted to the fields the module
reads: scheme, netloc, path (fragment and query split off first). -/
def urlparse (url : PStr) : URLParts :=
  let sr := urlsplitScheme url
  let nr := splitNetloc sr.2
  let fr : PStr × PStr :=
    match splitOnceAt '#' nr.2 with
    | none => (nr.2, [])
    | some pr => pr
  let qr : PStr × PStr :=
    match splitOnceAt '?' fr.1 with
    | none => (fr.1, [])
    | some pr => pr
  ⟨sr.1, nr.1, qr.1, qr.2, fr.2⟩

/-- A filesystem node: a regular file with its byte content, or a
directory with a named list of children (listdir order). -/
inductive FSEntry where
  | file (content : PStr)
  | dir (children : List (PStr × FSEntry))

/-- A filesystem: the children of the root directory. -/
abbrev FS := List (PStr × FSEntry)

/-- First binding of a name in a directory listing. -/
def assocFind : List (PStr × FSEntry) → PStr → Option FSEntry
  | [], _ => none
  | (m, e) :: rest, n => if m == n then some e else assocFind rest n

/-- Replace the first binding of a name (no effect when absent). -/
def assocSet : List (PStr × FSEntry) → PStr → FSEntry → List (PStr × FSEntry)
  | [], _, _ => []
  | (m, e) :: rest, n, v =>
      if m == n then (m, v) :: rest else (m, e) :: assocSet rest n v

/-- Remove the first binding of a name. -/
def assocDel : List (PStr × FSEntry) → PStr → List (PStr × FSEntry)
  | [], _ => []
  | (m, e) :: rest, n => if m == n then rest else (m, e) :: assocDel rest n

/-- Resolve a component path from an entry. -/
def lookupE : FSEntry → List PStr → Option FSEntry
  | e, [] => some e
  | .file _, _ :: _ => none
  | .dir cs, n :: rest =>
      match assocFind cs n with
      | none => none
      | some e => lookupE e rest

/-- os.path.exists. -/
def pathExists (fs : FS) (p : PStr) : Bool :=
  (lookupE (.dir fs) (comps p)).isSome

/-- Errors of the embedded Python code. -/
inductive PyErr where
  /-- ShareAuthenticationNeededException -/
  | shareAuthNeeded
  /-- ShareMountException with its message -/
  | shareMountFailed (msg : PStr)
  /-- the error raised by the final existence check of connect (the
  source raises the undefined name SomeSortOfError there) -/
  | rootUnavailable
  /-- OSError / IOError with a tag for the failure kind -/
  | osError (msg : PStr)
  /-- IndexError (empty mountpoints list indexed at zero) -/
  | indexError
deriving Repr, DecidableEq

/-- os.mkdir: parent must exist as a directory, target must not exist. -/
def mkdirIn : List (PStr × FSEntry) → List PStr → Except PyErr (List (PStr × FSEntry))
  | _, [] => .error (.osError (pstr "EEXIST"))
  | cs, [n] =>
      match assocFind cs n with
      | some _ => .error (.osError (pstr "EEXIST"))
      | none => .ok (cs ++ [(n, .dir [])])
  | cs, n :: m :: rest =>
      match assocFind cs n with
      | some (.dir sub) => (mkdirIn sub (m :: rest)).map (fun sub2 => assocSet cs n (.dir sub2))
      | some (.file _) => .error (.osError (pstr "ENOTDIR"))
      | none => .error (.osError (pstr "ENOENT"))

def mkdirFS (fs : FS) (p : PStr) : Except PyErr FS := mkdirIn fs (comps p)

/-- os.makedirs: create all missing intermediate directories; error when
the leaf already exists or an intermediate is a file. -/
def makedirsIn : List (PStr × FSEntry) → List PStr → Except PyErr (List (PStr × FSEntry))
  | _, [] => .error (.osError (pstr "EEXIST"))
  | cs, [n] =>
      match assocFind cs n with
      | some _ => .error (.osError (pstr "EEXIST"))
      | none => .ok (cs ++ [(n, .dir [])])
  | cs, n :: m :: rest =>
      match assocFind cs n with
      | some (.dir sub) => (makedirsIn sub (m :: rest)).map (fun sub2 => assocSet cs n (.dir sub2))
      | some (.file _) => .error (.osError (pstr "ENOTDIR"))
      | none =>
          match makedirsIn [] (m :: rest) with
          | .error e => .error e
          | .ok sub => .ok (cs ++ [(n, .dir sub)])

def makedirsFS (fs : FS) (p : PStr) : Except PyErr FS := makedirsIn fs (comps p)

/-- os.rmdir: remove an empty directory. -/
def rmdirIn : List (PStr × FSEntry) → List PStr → Except PyErr (List (PStr × FSEntry))
  | _, [] => .error (.osError (pstr "EBUSY"))
  | cs, [n] =>
      match assocFind cs n with
      | some (.dir []) => .ok (assocDel cs n)
      | some (.dir (_ :: _)) => .error (.osError (pstr "ENOTEMPTY"))
      | some (.file _) => .error (.osError (pstr "ENOTDIR"))
      | none => .error (.osError (pstr "ENOENT"))
  | cs, n :: m :: rest =>
      match assocFind cs n with
      | some (.dir sub) => (rmdirIn sub (m :: rest)).map (fun sub2 => assocSet cs n (.dir sub2))
      | some (.file _) => .error (.osError (pstr "ENOTDIR"))
      | none => .error (.osError (pstr "ENOENT"))

def rmdirFS (fs : FS) (p : PStr) : Except PyErr FS := rmdirIn fs (comps p)

/-- os.remove: delete a regular file. -/
def removeIn : List (PStr × FSEntry) → List PStr → Except PyErr (List (PStr × FSEntry))
  | _, [] => .error (.osError (pstr "EISDIR"))
  | cs, [n] =>
      match assocFind cs n with
      | some (.file _) => .ok (assocDel cs n)
      | some (.dir _) => .error (.osError (pstr "EISDIR"))
      | none => .error (.osError (pstr "ENOENT"))
  | cs, n :: m :: rest =>
      match assocFind cs n with
      | some (.dir sub) => (removeIn sub (m :: rest)).map (fun sub2 => assocSet cs n (.dir sub2))
      | some (.file _) => .error (.osError (pstr "ENOTDIR"))
      | none => .error (.osError (pstr "ENOENT"))

def removeFS (fs : FS) (p : PStr) : Except PyErr FS := removeIn fs (comps p)

/-- open(p) followed by read(): the full content of a regular file. -/
def readIn : List (PStr × FSEntry) → List PStr → Except PyErr PStr
  | _, [] => .error (.osError (pstr "EISDIR"))
  | cs, [n] =>
      match assocFind cs n with
      | some (.file c) => .ok c
      | some (.dir _) => .error (.osError (pstr "EISDIR"))
      | none => .error (.osError (pstr "ENOENT"))
  | cs, n :: m :: rest =>
      match assocFind cs n with
      | some (.dir sub) => readIn sub (m :: rest)
      | some (.file _) => .error (.osError (pstr "ENOTDIR"))
      | none => .error (.osError (pstr "ENOENT"))

def readFS (fs : FS) (p : PStr) : Except PyErr PStr := readIn fs (comps p)

/-- open(p, "w") followed by write(content): create or truncate a regular
file under an existing parent directory. -/
def writeIn : List (PStr × FSEntry) → List PStr → PStr → Except PyErr (List (PStr × FSEntry))
  | _, [], _ => .error (.osError (pstr "EISDIR"))
  | cs, [n], content =>
      match assocFind cs n with
      | some (.dir _) => .error (.osError (pstr "EISDIR"))
      | some (.file _) => .ok (assocSet cs n (.file content))
      | none => .ok (cs ++ [(n, .file content)])
  | cs, n :: m :: rest, content =>
      match assocFind cs n with
      | some (.dir sub) =>
          (writeIn sub (m :: rest) content).map (fun sub2 => assocSet cs n (.dir sub2))
      | some (.file _) => .error (.osError (pstr "ENOTDIR"))
      | none => .error (.osError (pstr "ENOENT"))

def writeFS (fs : FS) (p : PStr) (content : PStr) : Except PyErr FS :=
  writeIn fs (comps p) content

/-- Names of subdirectories in listdir order (the isdir partition of
os.walk). -/
def dirNames : List (PStr × FSEntry) → List PStr
  | [] => []
  | (n, .dir _) :: rest => n :: dirNames rest
  | (_, .file _) :: rest => dirNames rest

/-- Names of regular files in listdir order (the complementary
partition of os.walk). -/
def fileNames : List (PStr × FSEntry) → List PStr
  | [] => []
  | (_, .dir _) :: rest => fileNames rest
  | (n, .file _) :: rest => n :: fileNames rest

mutual
/-- os.walk from a directory whose listing is already known: yield the
triple for this directory, then walk each subdirectory in order. -/
def walkDir (path : PStr) (cs : List (PStr × FSEntry)) :
    List (PStr × List PStr × List PStr) :=
  (path, dirNames cs, fileNames cs) :: walkKids path cs
termination_by (sizeOf cs, 1)

/-- The recursive part of os.walk: the triples contributed by each
subdirectory of the current directory. -/
def walkKids (path : PStr) : List (PStr × FSEntry) → List (PStr × List PStr × List PStr)
  | [] => []
  | (_, .file _) :: rest => walkKids path rest
  | (n, .dir sub) :: rest => walkDir (ospathjoin path n) sub ++ walkKids path rest
termination_by cs => (sizeOf cs, 0)
end

/-- os.walk(top): nothing when top does not resolve to a directory
(listdir fails and os.walk suppresses the error). -/
def pyWalk (fs : FS) (top : PStr) : List (PStr × List PStr × List PStr) :=
  match lookupE (.dir fs) (comps top) with
  | some (.dir cs) => walkDir top cs
  | _ => []

/-- Result of one NetFSMountURLSync call: the numeric result, the
reported mountpoints, and the effect of the call on the filesystem. -/
structure NetFSOut where
  result : Int
  mountpoints : List PStr
  effect : FS → FS

/-- The host environment the module runs against: availability of the
native mount API, its behavior, the errno constants and strerror of the
platform, terminal input, and the behavior of subprocess.call. -/
structure World where
  netfsAvailable : Bool
  netfsMountURLSync : PStr → Option PStr → Option PStr → NetFSOut
  einval : Int
  enotsup : Int
  eauth : Int
  strerror : Int → PStr
  rawInputLine : PStr
  getpassLine : PStr
  subprocessCall : List PStr → Int × (FS → FS)

/-- The ShareMountException message: the source formats
"Error mounting url (quoted url): (strerror), error (code)". -/
def mountErrMsg (w : World) (share_url : PStr) (result : Int) : PStr :=
  pstr "Error mounting url \"" ++ share_url ++ pstr "\": " ++
    w.strerror result ++ pstr ", error " ++ intToPy result

/-- mount_share: one native non-interactive mount call with empty
credentials; classifies the numeric result. -/
def mount_share (w : World) (share_url : PStr) (fs : FS) : Except PyErr PStr × FS :=
  let out := w.netfsMountURLSync share_url none none
  let fs2 := out.effect fs
  if !(out.result == 0) then
    if out.result == -6600 || out.result == w.einval ||
       out.result == w.enotsup || out.result == w.eauth then
      (.error .shareAuthNeeded, fs2)
    else
      (.error (.shareMountFailed (mountErrMsg w share_url out.result)), fs2)
  else
    match out.mountpoints with
    | [] => (.error .indexError, fs2)
    | m :: _ => (.ok m, fs2)

/-- mount_share_with_credentials: same call with explicit credentials;
any nonzero result is a ShareMountException. -/
def mount_share_with_credentials (w : World) (share_url username password : PStr)
    (fs : FS) : Except PyErr PStr × FS :=
  let out := w.netfsMountURLSync share_url (some username) (some password)
  let fs2 := out.effect fs
  if !(out.result == 0) then
    (.error (.shareMountFailed (mountErrMsg w share_url out.result)), fs2)
  else
    match out.mountpoints with
    | [] => (.error .indexError, fs2)
    | m :: _ => (.ok m, fs2)

/-- mount_share_url: try mount_share; only on
ShareAuthenticationNeededException prompt for a username and a password
and retry with credentials. -/
def mount_share_url (w : World) (share_url : PStr) (fs : FS) : Except PyErr PStr × FS :=
  match mount_share w share_url fs with
  | (.error .shareAuthNeeded, fs2) =>
      mount_share_with_credentials w share_url w.rawInputLine w.getpassLine fs2
  | other => other

/-- Does the except clause "except ShareMountException" catch this error?
ShareAuthenticationNeededException is a subclass of ShareMountException. -/
def isShareMountErr : PyErr → Bool
  | .shareAuthNeeded => true
  | .shareMountFailed _ => true
  | _ => false

/-- Is this error a ShareMountException proper (MountFailed)? -/
def isMountFailedErr : PyErr → Bool
  | .shareMountFailed _ => true
  | _ => false

/-- The instance fields of the NewFileRepo class. -/
structure NewFileRepo where
  baseurl : PStr
  url_scheme : PStr
  root : PStr
  we_mounted_repo : Bool
deriving Repr, DecidableEq

namespace NewFileRepo

/-- The constructor: parse the base URL; a file scheme uses the path
directly, any other scheme joins it under /Volumes with os.path.join. -/
def init (baseurl : PStr) : NewFileRepo :=
  let url_parts := urlparse baseurl
  { baseurl := baseurl
    url_scheme := url_parts.scheme
    root :=
      if url_parts.scheme == pstr "file" then url_parts.path
      else ospathjoin (pstr "/Volumes") url_parts.path
    we_mounted_repo := false }

/-- The existence check at the end of connect: raise when root does not
exist (the source raises the undefined name SomeSortOfError). -/
def finalCheck (r : NewFileRepo) (fs : FS) : Except PyErr Unit × NewFileRepo × FS :=
  if pathExists fs r.root then (.ok (), r, fs) else (.error .rootUnavailable, r, fs)

/-- The tail of the external-command fallback, shared by the three
branches: run the command; on nonzero exit remove the created directory,
on zero exit mark the mount as owned; then the final existence check. -/
def runCmd (w : World) (r : NewFileRepo) (fs : FS) (cmd : List PStr) :
    Except PyErr Unit × NewFileRepo × FS :=
  let rc := w.subprocessCall cmd
  let fs2 := rc.2 fs
  if rc.1 == 0 then finalCheck { r with we_mounted_repo := true } fs2
  else
    match rmdirFS fs2 r.root with
    | .error e => (.error e, r, fs2)
    | .ok fs3 => finalCheck r fs3

/-- The external-command fallback of connect: mkdir the candidate root,
pick the mount tool by URL scheme, or return on an unsupported scheme
(skipping the final existence check). -/
def connectFallback (w : World) (r : NewFileRepo) (fs : FS) :
    Except PyErr Unit × NewFileRepo × FS :=
  match mkdirFS fs r.root with
  | .error e => (.error e, r, fs)
  | .ok fs1 =>
      if startswith r.baseurl (pstr "afp:") then
        runCmd w r fs1 [pstr "/sbin/mount_afp", pstr "-i", r.baseurl, r.root]
      else if startswith r.baseurl (pstr "smb:") then
        runCmd w r fs1 [pstr "/sbin/mount_smbfs", r.baseurl.drop 4, r.root]
      else if startswith r.baseurl (pstr "nfs://") then
        runCmd w r fs1 [pstr "/sbin/mount_nfs", r.baseurl.drop 6, r.root]
      else (.ok (), r, fs1)

/-- The native-mount branch of connect: on success reassign root, mark
the mount owned and run the final existence check; on a caught
ShareMountException log and return (skipping the final check). -/
def connectNative (w : World) (r : NewFileRepo) (fs : FS) :
    Except PyErr Unit × NewFileRepo × FS :=
  match mount_share_url w r.baseurl fs with
  | (.ok mp, fs1) => finalCheck { r with root := mp, we_mounted_repo := true } fs1
  | (.error e, fs1) =>
      if isShareMountErr e then (.ok (), r, fs1) else (.error e, r, fs1)

/-- connect: mount only when root is absent and the scheme is not file;
the branches that do not return early end in the final existence
check. -/
def connect (w : World) (r : NewFileRepo) (fs : FS) :
    Except PyErr Unit × NewFileRepo × FS :=
  if !(pathExists fs r.root) && !(r.url_scheme == pstr "file") then
    if w.netfsAvailable then connectNative w r fs else connectFallback w r fs
  else finalCheck r fs

/-- Concatenation of the lists produced for each element (the nested
append loop of itemlist). -/
def catMap {α β : Type} (f : α → List β) : List α → List β
  | [] => []
  | a :: rest => f a ++ catMap f rest

/-- The relative path computed by itemlist for one walked file:
abs_path with the search directory sliced off, leading slashes
stripped. -/
def relOf (search_dir abs_path : PStr) : PStr :=
  lstripSlash (abs_path.drop search_dir.length)

/-- The body of the itemlist loops over the walk results. -/
def extractFiles (search_dir : PStr) (ws : List (PStr × List PStr × List PStr)) :
    List PStr :=
  catMap (fun t => t.2.2.map (fun name => relOf search_dir (ospathjoin t.1 name))) ws

/-- itemlist(kind): walk root/kind and collect each file path relative to
that directory. -/
def itemlist (r : NewFileRepo) (kind : PStr) (fs : FS) :
    List PStr × NewFileRepo × FS :=
  let search_dir := ospathjoin r.root kind
  (extractFiles search_dir (pyWalk fs search_dir), r, fs)

/-- get(resource_identifier): read the file at root joined with the
identifier. -/
def get (r : NewFileRepo) (resource_identifier : PStr) (fs : FS) :
    Except PyErr PStr × NewFileRepo × FS :=
  (readFS fs (ospathjoin r.root resource_identifier), r, fs)

/-- get_to_local_file: shutil.copyfile from the repo path to the local
path (read source, then create or truncate destination). -/
def get_to_local_file (r : NewFileRepo) (resource_identifier local_file_path : PStr)
    (fs : FS) : Except PyErr Unit × NewFileRepo × FS :=
  let repo_filepath := ospathjoin r.root resource_identifier
  match readFS fs repo_filepath with
  | .error e => (.error e, r, fs)
  | .ok data =>
      match writeFS fs local_file_path data with
      | .error e => (.error e, r, fs)
      | .ok fs1 => (.ok (), r, fs1)

/-- put(resource_identifier, content): create missing parent directories,
then write the content. -/
def put (r : NewFileRepo) (resource_identifier content : PStr) (fs : FS) :
    Except PyErr Unit × NewFileRepo × FS :=
  let repo_filepath := ospathjoin r.root resource_identifier
  let dir_path := dirname repo_filepath
  let made : Except PyErr FS :=
    if pathExists fs dir_path then .ok fs else makedirsFS fs dir_path
  match made with
  | .error e => (.error e, r, fs)
  | .ok fs1 =>
      match writeFS fs1 repo_filepath content with
      | .error e => (.error e, r, fs1)
      | .ok fs2 => (.ok (), r, fs2)

/-- put_from_local_file: create missing parent directories, then
shutil.copyfile from the local path to the repo path. -/
def put_from_local_file (r : NewFileRepo) (resource_identifier local_file_path : PStr)
    (fs : FS) : Except PyErr Unit × NewFileRepo × FS :=
  let repo_filepath := ospathjoin r.root resource_identifier
  let dir_path := dirname repo_filepath
  let made : Except PyErr FS :=
    if pathExists fs dir_path then .ok fs else makedirsFS fs dir_path
  match made with
  | .error e => (.error e, r, fs)
  | .ok fs1 =>
      match readFS fs1 local_file_path with
      | .error e => (.error e, r, fs1)
      | .ok data =>
          match writeFS fs1 repo_filepath data with
          | .error e => (.error e, r, fs1)
          | .ok fs2 => (.ok (), r, fs2)

/-- delete(resource_identifier): os.remove of the repo path. -/
def delete (r : NewFileRepo) (resource_identifier : PStr) (fs : FS) :
    Except PyErr Unit × NewFileRepo × FS :=
  match removeFS fs (ospathjoin r.root resource_identifier) with
  | .error e => (.error e, r, fs)
  | .ok fs1 => (.ok (), r, fs1)

end NewFileRepo

/-! ### Specification-side definitions

The following definitions express, directly on the filesystem tree, what
the spec claims itemlist computes: the set of relative paths of the
regular files under a directory.  They are compared with the walk-and-
slice pipeline of the source. -/

/-- A usable entry name: nonempty and without a path separator. -/
def goodNameB (n : PStr) : Bool := !(n.isEmpty) && n.all (fun c => !(c == '/'))

/-- Well-formed directory tree: every name at every level is usable. -/
def wfL : List (PStr × FSEntry) → Bool
  | [] => true
  | (n, .file _) :: rest => goodNameB n && wfL rest
  | (n, .dir sub) :: rest => goodNameB n && wfL sub && wfL rest

/-- The relative paths of all regular files in a directory tree, stated
structurally (spec side). -/
def relFiles : List (PStr × FSEntry) → List PStr
  | [] => []
  | (n, .file _) :: rest => n :: relFiles rest
  | (n, .dir sub) :: rest =>
      (relFiles sub).map (fun p => n ++ '/' :: p) ++ relFiles rest

/-- The relative paths contributed by subdirectories only. -/
def relFilesKids : List (PStr × FSEntry) → List PStr
  | [] => []
  | (_, .file _) :: rest => relFilesKids rest
  | (n, .dir sub) :: rest =>
      (relFiles sub).map (fun p => n ++ '/' :: p) ++ relFilesKids rest

/-- A directory path extended by a relative path (the shape every walked
directory path has below the search directory). -/
def joinRel (sd r : PStr) : PStr := if r.isEmpty then sd else sd ++ '/' :: r

/-- A relative path extended by one more component. -/
def prependRel (r n : PStr) : PStr := if r.isEmpty then n else r ++ '/' :: n

/-- A relative path in good shape: no leading and no trailing slash. -/
def relOk (r : PStr) : Prop :=
  startswith r (pstr "/") = false ∧ endswithSlash r = false

/-! ### Concrete sample data for witnesses and counterexamples -/

/-- Identity filesystem effect (an external call that changes nothing). -/
def idFS : FS → FS := fun fs => fs

/-- Native mount present; every mount attempt returns code -1 (a
non-authentication failure) and leaves the filesystem alone. -/
def wSoft : World :=
  { netfsAvailable := true
    netfsMountURLSync := fun _ _ _ => ⟨-1, [], idFS⟩
    einval := 22
    enotsup := 45
    eauth := 80
    strerror := fun _ => pstr "Unknown error"
    rawInputLine := pstr "user"
    getpassLine := pstr "pw"
    subprocessCall := fun _ => (1, idFS) }

/-- Like wSoft but the native call fails with code -2. -/
def wSoft3 : World := { wSoft with netfsMountURLSync := fun _ _ _ => ⟨-2, [], idFS⟩ }

/-- Fallback world whose mount command succeeds exactly when the SMB tool
is invoked with the argument the claim predicts (scheme and slashes
stripped). -/
def wSmbClaim : World :=
  { wSoft with
    netfsAvailable := false
    subprocessCall := fun cmd =>
      (if cmd == [pstr "/sbin/mount_smbfs", pstr "host/share", pstr "/share"] then 0 else 1,
       idFS) }

/-- Fallback world whose mount command succeeds exactly when the SMB tool
is invoked with the argument the code actually passes (only the scheme
stripped). -/
def wSmbActual : World :=
  { wSoft with
    netfsAvailable := false
    subprocessCall := fun cmd =>
      (if cmd == [pstr "/sbin/mount_smbfs", pstr "//host/share", pstr "/share"] then 0 else 1,
       idFS) }

/-- Fallback world whose mount command always fails. -/
def wC7 : World := { wSoft with netfsAvailable := false }

/-- Fallback world used for the command-selection witness. -/
def wFb : World := { wSoft with netfsAvailable := false }

/-- Native world returning the non-authentication code 5. -/
def wC4 : World :=
  { wSoft with
    netfsMountURLSync := fun _ _ _ => ⟨5, [], idFS⟩
    strerror := fun _ => pstr "Input output error" }

/-- Native world needing credentials: the plain call reports -6600, the
credentialed call succeeds. -/
def wC5 : World :=
  { wSoft with
    netfsMountURLSync := fun _ u _ =>
      match u with
      | none => ⟨-6600, [], idFS⟩
      | some _ => ⟨0, [pstr "/Volumes/share"], idFS⟩ }

def rSmb : NewFileRepo := NewFileRepo.init (pstr "smb://host/share")

def rAfp : NewFileRepo := NewFileRepo.init (pstr "afp://server/repo")

def rNfs : NewFileRepo := NewFileRepo.init (pstr "nfs://server/repo")

def rSmb2 : NewFileRepo := NewFileRepo.init (pstr "smb://host2/vol")

def rFile : NewFileRepo := NewFileRepo.init (pstr "file:///repo")

/-- A filesystem containing only the directory /repo. -/
def fsRepo : FS := [(pstr "repo", FSEntry.dir [])]

/-- Sample listing of a manifests directory with a nested subdirectory. -/
def csA : List (PStr × FSEntry) :=
  [(pstr "site_default", FSEntry.file (pstr "abc")),
   (pstr "apps", FSEntry.dir
      [(pstr "x", FSEntry.file (pstr "1")), (pstr "y", FSEntry.file (pstr "2"))]),
   (pstr "top2", FSEntry.file (pstr "d"))]

/-- A repository filesystem rooted at /repo holding csA under manifests. -/
def fsA : FS := [(pstr "repo", FSEntry.dir [(pstr "manifests", FSEntry.dir csA)])]

/-! ### String lemmas -/

theorem pstr_slash : pstr "/" = ['/'] := rfl

theorem startswith_iff (s p : PStr) : startswith s p = true ↔ ∃ t, s = p ++ t := by
  induction p generalizing s with
  | nil => cases s <;> simp [startswith]
  | cons d p ih =>
    cases s with
    | nil => simp [startswith]
    | cons c s =>
      simp only [startswith, Bool.and_eq_true, beq_iff_eq, ih, List.cons_append,
        List.cons.injEq]
      constructor
      · rintro ⟨h1, t, h2⟩; exact ⟨t, h1, h2⟩
      · rintro ⟨t, h1, h2⟩; exact ⟨h1, t, h2⟩

theorem startswith_append (p t : PStr) : startswith (p ++ t) p = true :=
  (startswith_iff _ _).mpr ⟨t, rfl⟩

theorem startswith_slash_eq_false (n : PStr) (h : '/' ∉ n) :
    startswith n (pstr "/") = false := by
  cases n with
  | nil => rfl
  | cons c s =>
    have hc : (c == '/') = false := by
      refine beq_eq_false_iff_ne.mpr ?_
      intro he
      exact h (he ▸ List.mem_cons_self c s)
    show (c == '/' && startswith s []) = false
    rw [hc, Bool.false_and]

theorem lstripSlash_noop (r : PStr) (h : startswith r (pstr "/") = false) :
    lstripSlash r = r := by
  cases r with
  | nil => rfl
  | cons c s =>
    simp only [pstr_slash, startswith, Bool.and_eq_false_iff] at h
    rcases h with h | h
    · simp [lstripSlash, h]
    · cases s <;> simp [startswith] at h

theorem startswith_lstripSlash (q : PStr) :
    startswith (lstripSlash q) (pstr "/") = false := by
  induction q with
  | nil => rfl
  | cons c s ih =>
    by_cases hc : c = '/'
    · simpa [lstripSlash, hc] using ih
    · have hcb : (c == '/') = false := beq_eq_false_iff_ne.mpr hc
      rw [lstripSlash, hcb]
      show (c == '/' && startswith s []) = false
      rw [hcb, Bool.false_and]

theorem endswithSlash_append (a b : PStr) (hb : b ≠ []) :
    endswithSlash (a ++ b) = endswithSlash b := by
  induction a with
  | nil => rfl
  | cons c a ih =>
    have hne : a ++ b ≠ [] := by
      intro h
      exact hb (List.append_eq_nil.mp h).2
    cases h : a ++ b with
    | nil => exact absurd h hne
    | cons d s =>
      rw [List.cons_append, h, endswithSlash, ← h, ih]

theorem endswithSlash_eq_false : ∀ (n : PStr), '/' ∉ n → endswithSlash n = false
  | [], _ => rfl
  | [c], h => by
      have hc : ¬(c = '/') := fun he => h (he ▸ List.mem_cons_self c [])
      simp [endswithSlash, hc]
  | _ :: c :: s, h => by
      rw [endswithSlash]
      exact endswithSlash_eq_false (c :: s) (fun hm => h (List.mem_cons_of_mem _ hm))

theorem containsSeq_of_startswith (s t : PStr) (h : startswith s t = true) :
    containsSeq s t = true := by
  cases s with
  | nil => simpa [containsSeq] using h
  | cons c s2 => simp [containsSeq, h]

theorem containsSeq_cons (c : Char) (s t : PStr) (h : containsSeq s t = true) :
    containsSeq (c :: s) t = true := by
  simp [containsSeq, h]

theorem containsSeq_append_mid (a t b : PStr) : containsSeq (a ++ t ++ b) t = true := by
  induction a with
  | nil => simpa using containsSeq_of_startswith (t ++ b) t (startswith_append t b)
  | cons c a ih => simpa using containsSeq_cons c (a ++ t ++ b) t ih

/-! ### Lemmas about the itemlist pipeline -/

theorem goodNameB_spec (n : PStr) (h : goodNameB n = true) : n ≠ [] ∧ '/' ∉ n := by
  unfold goodNameB at h
  rw [Bool.and_eq_true] at h
  constructor
  · intro he
    rw [he] at h
    simp at h
  · intro hm
    have := (List.all_eq_true.mp h.2) '/' hm
    simp at this

theorem wfL_fileNames : ∀ (cs : List (PStr × FSEntry)), wfL cs = true →
    ∀ n ∈ fileNames cs, goodNameB n = true
  | [], _, n, hn => by simp [fileNames] at hn
  | (m, .file _) :: rest, h, n, hn => by
      rw [wfL, Bool.and_eq_true] at h
      rw [fileNames, List.mem_cons] at hn
      rcases hn with hn | hn
      · exact hn ▸ h.1
      · exact wfL_fileNames rest h.2 n hn
  | (m, .dir sub) :: rest, h, n, hn => by
      rw [wfL, Bool.and_eq_true, Bool.and_eq_true] at h
      rw [fileNames] at hn
      exact wfL_fileNames rest h.2 n hn

theorem perm_middle_shift {α : Type} (x a b : List α) : (x ++ (a ++ b)).Perm (a ++ (x ++ b)) := by
  have h1 : ((x ++ a) ++ b).Perm ((a ++ x) ++ b) :=
    List.Perm.append_right b List.perm_append_comm
  simpa [List.append_assoc] using h1

theorem relFiles_perm (cs : List (PStr × FSEntry)) :
    (relFiles cs).Perm (fileNames cs ++ relFilesKids cs) := by
  induction cs with
  | nil => simp [relFiles, fileNames, relFilesKids]
  | cons pe rest ih =>
    obtain ⟨n, e⟩ := pe
    cases e with
    | file c =>
      rw [relFiles, fileNames, relFilesKids, List.cons_append]
      exact ih.cons n
    | dir sub =>
      rw [relFiles, fileNames, relFilesKids]
      refine ((List.Perm.append_left _ ih).trans ?_)
      exact perm_middle_shift _ _ _

theorem catMap_append {α β : Type} (f : α → List β) (a b : List α) :
    NewFileRepo.catMap f (a ++ b) = NewFileRepo.catMap f a ++ NewFileRepo.catMap f b := by
  induction a with
  | nil => rfl
  | cons x a ih => simp [NewFileRepo.catMap, ih]

theorem mem_catMap {α β : Type} (f : α → List β) (l : List α) (p : β)
    (h : p ∈ NewFileRepo.catMap f l) : ∃ a ∈ l, p ∈ f a := by
  induction l with
  | nil => simp [NewFileRepo.catMap] at h
  | cons x l ih =>
    rw [NewFileRepo.catMap, List.mem_append] at h
    rcases h with h | h
    · exact ⟨x, List.mem_cons_self x l, h⟩
    · obtain ⟨a, ha, hp⟩ := ih h
      exact ⟨a, List.mem_cons_of_mem x ha, hp⟩

theorem joinRel_nil (sd : PStr) : joinRel sd [] = sd := rfl

theorem prependRel_nil (n : PStr) : prependRel [] n = n := rfl

theorem ospathjoin_joinRel (sd : PStr) (hsd1 : sd ≠ []) (hsd2 : endswithSlash sd = false)
    (r n : PStr) (hr : relOk r) (hn1 : n ≠ []) (hn2 : '/' ∉ n) :
    ospathjoin (joinRel sd r) n = joinRel sd (prependRel r n) := by
  have hnsw : startswith n (pstr "/") = false := startswith_slash_eq_false n hn2
  cases r with
  | nil =>
    rw [joinRel_nil, prependRel_nil]
    unfold ospathjoin joinRel
    rw [hnsw]
    simp [hsd1, hsd2, List.isEmpty_iff, hn1]
  | cons rc rs =>
    have hend : endswithSlash (sd ++ '/' :: rc :: rs) = false := by
      rw [endswithSlash_append sd ('/' :: rc :: rs) (by simp), endswithSlash]
      have : endswithSlash (rc :: rs) = false := hr.2
      exact this
    unfold joinRel prependRel ospathjoin
    simp only [List.isEmpty_cons, List.isEmpty_iff, hnsw]
    rw [if_neg (by simp)]
    simp only [Bool.false_eq_true, if_false]
    rw [if_neg (by simp [List.append_eq_nil, hend])]
    · simp [List.append_assoc]

theorem relOf_joinRel (sd r2 : PStr) (h : startswith r2 (pstr "/") = false) :
    NewFileRepo.relOf sd (joinRel sd r2) = r2 := by
  cases r2 with
  | nil =>
    rw [joinRel_nil]
    unfold NewFileRepo.relOf
    rw [List.drop_length]
    rfl
  | cons c s =>
    unfold joinRel NewFileRepo.relOf
    rw [if_neg (by simp)]
    rw [List.drop_left]
    show lstripSlash (c :: s) = c :: s
    exact lstripSlash_noop (c :: s) h

theorem relOk_nil : relOk [] := ⟨rfl, rfl⟩

theorem relOk_prependRel (r n : PStr) (hr : relOk r) (hn1 : n ≠ []) (hn2 : '/' ∉ n) :
    relOk (prependRel r n) := by
  cases r with
  | nil =>
    rw [prependRel_nil]
    exact ⟨startswith_slash_eq_false n hn2, endswithSlash_eq_false n hn2⟩
  | cons rc rs =>
    have h1 : startswith (prependRel (rc :: rs) n) (pstr "/") = false := by
      unfold prependRel
      rw [if_neg (by simp)]
      have hr1 := hr.1
      show (rc == '/' && startswith (rs ++ '/' :: n) []) = false
      have : (rc == '/') = false := by
        by_contra hb
        rw [Bool.not_eq_false, beq_iff_eq] at hb
        rw [hb] at hr1
        simp [startswith] at hr1
      rw [this, Bool.false_and]
    have h2 : endswithSlash (prependRel (rc :: rs) n) = false := by
      unfold prependRel
      rw [if_neg (by simp)]
      rw [endswithSlash_append (rc :: rs) ('/' :: n) (by simp)]
      cases n with
      | nil => exact absurd rfl hn1
      | cons nc ns =>
        rw [endswithSlash]
        exact endswithSlash_eq_false (nc :: ns) hn2
    exact ⟨h1, h2⟩

theorem prependRel_prependRel (r n p : PStr) (hn : n ≠ []) :
    prependRel (prependRel r n) p = prependRel r (n ++ '/' :: p) := by
  cases r with
  | nil =>
    rw [prependRel_nil, prependRel_nil]
    unfold prependRel
    rw [if_neg (by simp [List.isEmpty_iff, hn])]
  | cons rc rs =>
    unfold prependRel
    rw [if_neg (by simp)]
    rw [if_neg (by simp), if_neg (by simp)]
    simp [List.append_assoc]

theorem extractFiles_nil (sd : PStr) : NewFileRepo.extractFiles sd [] = [] := rfl

theorem extractFiles_cons (sd : PStr) (t : PStr × List PStr × List PStr)
    (ws : List (PStr × List PStr × List PStr)) :
    NewFileRepo.extractFiles sd (t :: ws) =
      t.2.2.map (fun name => NewFileRepo.relOf sd (ospathjoin t.1 name)) ++
        NewFileRepo.extractFiles sd ws := rfl

theorem extractFiles_append (sd : PStr) (a b : List (PStr × List PStr × List PStr)) :
    NewFileRepo.extractFiles sd (a ++ b) =
      NewFileRepo.extractFiles sd a ++ NewFileRepo.extractFiles sd b := by
  unfold NewFileRepo.extractFiles
  exact catMap_append _ a b

mutual
theorem extract_walkDir (sd : PStr) (hsd1 : sd ≠ []) (hsd2 : endswithSlash sd = false)
    (r : PStr) (hr : relOk r) (cs : List (PStr × FSEntry)) (hwf : wfL cs = true) :
    (NewFileRepo.extractFiles sd (walkDir (joinRel sd r) cs)).Perm
      ((relFiles cs).map (prependRel r)) := by
  rw [walkDir, extractFiles_cons]
  have hmap : (fileNames cs).map
        (fun name => NewFileRepo.relOf sd (ospathjoin (joinRel sd r) name)) =
      (fileNames cs).map (prependRel r) := by
    refine List.map_congr_left ?_
    intro n hn
    obtain ⟨hn1, hn2⟩ := goodNameB_spec n (wfL_fileNames cs hwf n hn)
    rw [ospathjoin_joinRel sd hsd1 hsd2 r n hr hn1 hn2,
        relOf_joinRel sd _ ((relOk_prependRel r n hr hn1 hn2).1)]
  have hkids := extract_walkKids sd hsd1 hsd2 r hr cs hwf
  show ((fileNames cs).map
      (fun name => NewFileRepo.relOf sd (ospathjoin (joinRel sd r) name)) ++
      NewFileRepo.extractFiles sd (walkKids (joinRel sd r) cs)).Perm
      ((relFiles cs).map (prependRel r))
  rw [hmap]
  refine List.Perm.trans (List.Perm.append_left _ hkids) ?_
  rw [← List.map_append]
  exact (List.Perm.map (prependRel r) (relFiles_perm cs)).symm
termination_by (sizeOf cs, 1)

theorem extract_walkKids (sd : PStr) (hsd1 : sd ≠ []) (hsd2 : endswithSlash sd = false)
    (r : PStr) (hr : relOk r) (cs : List (PStr × FSEntry)) (hwf : wfL cs = true) :
    (NewFileRepo.extractFiles sd (walkKids (joinRel sd r) cs)).Perm
      ((relFilesKids cs).map (prependRel r)) := by
  match cs, hwf with
  | [], _ =>
    simp only [walkKids, extractFiles_nil, relFilesKids, List.map_nil]
    exact List.Perm.refl []
  | (n, .file c) :: rest, hwf =>
    rw [wfL, Bool.and_eq_true] at hwf
    simp only [walkKids, relFilesKids]
    exact extract_walkKids sd hsd1 hsd2 r hr rest hwf.2
  | (n, .dir sub) :: rest, hwf =>
    rw [wfL, Bool.and_eq_true, Bool.and_eq_true] at hwf
    obtain ⟨⟨hgn, hwsub⟩, hwrest⟩ := hwf
    obtain ⟨hn1, hn2⟩ := goodNameB_spec n hgn
    simp only [walkKids, relFilesKids, extractFiles_append, List.map_append]
    have hrn : relOk (prependRel r n) := relOk_prependRel r n hr hn1 hn2
    have hjoin : ospathjoin (joinRel sd r) n = joinRel sd (prependRel r n) :=
      ospathjoin_joinRel sd hsd1 hsd2 r n hr hn1 hn2
    have hsub := extract_walkDir sd hsd1 hsd2 (prependRel r n) hrn sub hwsub
    rw [hjoin]
    have hsub2 : ((relFiles sub).map (prependRel (prependRel r n))) =
        ((relFiles sub).map (fun p => n ++ '/' :: p)).map (prependRel r) := by
      rw [List.map_map]
      refine List.map_congr_left ?_
      intro p _
      exact prependRel_prependRel r n p hn1
    rw [hsub2] at hsub
    exact List.Perm.append hsub (extract_walkKids sd hsd1 hsd2 r hr rest hwrest)
termination_by (sizeOf cs, 0)
end

theorem extractFiles_no_lead (sd : PStr) (ws : List (PStr × List PStr × List PStr))
    (p : PStr) (h : p ∈ NewFileRepo.extractFiles sd ws) :
    startswith p (pstr "/") = false := by
  obtain ⟨t, _, hp⟩ := mem_catMap _ ws p h
  obtain ⟨name, _, he⟩ := List.mem_map.mp hp
  rw [← he]
  exact startswith_lstripSlash _

theorem map_prependRel_nil (l : List PStr) : l.map (prependRel []) = l := by
  have : l.map (prependRel []) = l.map id := List.map_congr_left (fun p _ => prependRel_nil p)
  rw [this, List.map_id]

/-! ### Lemmas about writing and reading back -/

theorem assocFind_assocSet_found (cs : List (PStr × FSEntry)) (n : PStr) (v : FSEntry)
    (h : (assocFind cs n).isSome = true) : assocFind (assocSet cs n v) n = some v := by
  induction cs with
  | nil => simp [assocFind] at h
  | cons pe rest ih =>
    obtain ⟨m, e⟩ := pe
    by_cases hm : (m == n) = true
    · simp [assocFind, assocSet, hm]
    · rw [Bool.not_eq_true] at hm
      rw [assocFind, hm] at h
      rw [assocSet, hm]
      simp only [Bool.false_eq_true, if_false]
      rw [assocFind, hm]
      simp only [Bool.false_eq_true, if_false]
      exact ih h

theorem assocFind_append_one (cs : List (PStr × FSEntry)) (n : PStr) (e : FSEntry)
    (h : assocFind cs n = none) : assocFind (cs ++ [(n, e)]) n = some e := by
  induction cs with
  | nil => simp [assocFind]
  | cons pe rest ih =>
    obtain ⟨m, e2⟩ := pe
    by_cases hm : (m == n) = true
    · rw [assocFind, hm] at h
      simp at h
    · rw [Bool.not_eq_true] at hm
      rw [assocFind, hm] at h
      simp only [Bool.false_eq_true, if_false] at h
      rw [List.cons_append, assocFind, hm]
      simp only [Bool.false_eq_true, if_false]
      exact ih h

theorem readIn_writeIn : ∀ (path : List PStr) (cs : List (PStr × FSEntry)) (c : PStr)
    (cs2 : List (PStr × FSEntry)), writeIn cs path c = .ok cs2 → readIn cs2 path = .ok c
  | [], cs, c, cs2, h => by simp [writeIn] at h
  | [n], cs, c, cs2, h => by
      rw [writeIn] at h
      cases hf : assocFind cs n with
      | none =>
        rw [hf] at h
        simp only [Except.ok.injEq] at h
        rw [readIn, ← h, assocFind_append_one cs n (.file c) hf]
      | some e =>
        cases e with
        | file c0 =>
          rw [hf] at h
          simp only [Except.ok.injEq] at h
          rw [readIn, ← h,
            assocFind_assocSet_found cs n (.file c) (by rw [hf]; rfl)]
        | dir sub =>
          rw [hf] at h
          simp at h
  | n :: m :: rest, cs, c, cs2, h => by
      rw [writeIn] at h
      cases hf : assocFind cs n with
      | none =>
        rw [hf] at h
        have h2 : (Except.error (PyErr.osError (pstr "ENOENT")) :
            Except PyErr (List (PStr × FSEntry))) = Except.ok cs2 := h
        simp at h2
      | some e =>
        cases e with
        | file c0 =>
          rw [hf] at h
          have h2 : (Except.error (PyErr.osError (pstr "ENOTDIR")) :
              Except PyErr (List (PStr × FSEntry))) = Except.ok cs2 := h
          simp at h2
        | dir sub =>
          rw [hf] at h
          have h2 : Except.map (fun sub2 => assocSet cs n (FSEntry.dir sub2))
              (writeIn sub (m :: rest) c) = Except.ok cs2 := h
          cases hw : writeIn sub (m :: rest) c with
          | error e2 =>
            rw [hw] at h2
            have h3 : (Except.error e2 : Except PyErr (List (PStr × FSEntry))) =
                Except.ok cs2 := h2
            simp at h3
          | ok sub2 =>
            rw [hw] at h2
            have h3 : Except.ok (assocSet cs n (FSEntry.dir sub2)) = Except.ok cs2 := h2
            simp only [Except.ok.injEq] at h3
            rw [readIn, ← h3,
              assocFind_assocSet_found cs n (.dir sub2) (by rw [hf]; rfl)]
            exact readIn_writeIn (m :: rest) sub c sub2 hw

/-! ### Claim theorems -/

/-- Claim C1, counterexample: for the base URL smb://host/share the
constructor sets root to /share (os.path.join discards /Volumes because
the URL path component is absolute), not to /Volumes/share as the claim
states. -/
theorem C1_root_join_counterexample :
    (NewFileRepo.init (pstr "smb://host/share")).root = pstr "/share" ∧
    ¬((NewFileRepo.init (pstr "smb://host/share")).root = pstr "/Volumes/share") ∧
    ¬((NewFileRepo.init (pstr "smb://host/share")).root =
        pstr "/Volumes" ++ (urlparse (pstr "smb://host/share")).path) := by
  refine ⟨rfl, ?_, ?_⟩ <;> decide

/-- Claim C1 as amended: for a file scheme the root is the URL path
component directly; for every other scheme the root is
os.path.join of /Volumes and the path component, which is the path
component itself whenever it begins with a slash (the normal case for a
URL with a host) and /Volumes/ followed by the path component
otherwise. -/
theorem C1_root_resolution_amended (baseurl : PStr) :
    ((urlparse baseurl).scheme = pstr "file" →
        (NewFileRepo.init baseurl).root = (urlparse baseurl).path) ∧
    ((urlparse baseurl).scheme ≠ pstr "file" →
        (NewFileRepo.init baseurl).root =
            ospathjoin (pstr "/Volumes") (urlparse baseurl).path ∧
        (startswith (urlparse baseurl).path (pstr "/") = true →
            (NewFileRepo.init baseurl).root = (urlparse baseurl).path) ∧
        (startswith (urlparse baseurl).path (pstr "/") = false →
            (NewFileRepo.init baseurl).root =
                pstr "/Volumes" ++ '/' :: (urlparse baseurl).path)) := by
  constructor
  · intro h
    simp [NewFileRepo.init, h]
  · intro h
    have hb : ((urlparse baseurl).scheme == pstr "file") = false :=
      beq_eq_false_iff_ne.mpr h
    refine ⟨by simp [NewFileRepo.init, hb], ?_, ?_⟩
    · intro hsw
      simp [NewFileRepo.init, hb, ospathjoin, hsw]
    · intro hsw
      simp only [NewFileRepo.init, hb, Bool.false_eq_true, if_false, ospathjoin, hsw]
      rw [if_neg (by decide)]

/-- Claim C1 amended, witness at smb://host/share: a non-file scheme
whose path component starts with a slash, so the root is the path
component itself. -/
theorem C1_root_resolution_amended_witness :
    (urlparse (pstr "smb://host/share")).scheme ≠ pstr "file" ∧
    (NewFileRepo.init (pstr "smb://host/share")).root =
      (urlparse (pstr "smb://host/share")).path := by
  refine ⟨by decide, ?_⟩
  exact ((C1_root_resolution_amended (pstr "smb://host/share")).2 (by decide)).2.1 (by decide)

/-- Claim C4: mount_share classifies the single native call result
exactly as specified: 0 returns the first reported mount point; one of
the codes -6600, EINVAL, ENOTSUP, EAUTH raises the authentication
exception; any other nonzero code raises ShareMountException whose
message contains the URL, the platform error string and the numeric
code. -/
theorem C4_mount_share_classification (w : World) (url : PStr) (fs : FS) :
    (∀ m ms, (w.netfsMountURLSync url none none).result = 0 →
        (w.netfsMountURLSync url none none).mountpoints = m :: ms →
        mount_share w url fs = (.ok m, (w.netfsMountURLSync url none none).effect fs)) ∧
    ((w.netfsMountURLSync url none none).result ≠ 0 →
        ((w.netfsMountURLSync url none none).result = -6600 ∨
         (w.netfsMountURLSync url none none).result = w.einval ∨
         (w.netfsMountURLSync url none none).result = w.enotsup ∨
         (w.netfsMountURLSync url none none).result = w.eauth) →
        mount_share w url fs =
          (.error .shareAuthNeeded, (w.netfsMountURLSync url none none).effect fs)) ∧
    ((w.netfsMountURLSync url none none).result ≠ 0 →
        ¬((w.netfsMountURLSync url none none).result = -6600 ∨
          (w.netfsMountURLSync url none none).result = w.einval ∨
          (w.netfsMountURLSync url none none).result = w.enotsup ∨
          (w.netfsMountURLSync url none none).result = w.eauth) →
        mount_share w url fs =
          (.error (.shareMountFailed
              (mountErrMsg w url (w.netfsMountURLSync url none none).result)),
           (w.netfsMountURLSync url none none).effect fs) ∧
        containsSeq (mountErrMsg w url (w.netfsMountURLSync url none none).result)
          url = true ∧
        containsSeq (mountErrMsg w url (w.netfsMountURLSync url none none).result)
          (w.strerror (w.netfsMountURLSync url none none).result) = true ∧
        containsSeq (mountErrMsg w url (w.netfsMountURLSync url none none).result)
          (intToPy (w.netfsMountURLSync url none none).result) = true) := by
  refine ⟨?_, ?_, ?_⟩
  · intro m ms h0 hm
    simp only [mount_share]
    rw [beq_iff_eq.mpr h0, hm]
    rfl
  · intro h0 hset
    have hb : ((w.netfsMountURLSync url none none).result == -6600 ||
        (w.netfsMountURLSync url none none).result == w.einval ||
        (w.netfsMountURLSync url none none).result == w.enotsup ||
        (w.netfsMountURLSync url none none).result == w.eauth) = true := by
      rcases hset with h | h | h | h <;> simp [h]
    simp only [mount_share]
    rw [beq_eq_false_iff_ne.mpr h0, hb]
    rfl
  · intro h0 hset
    push_neg at hset
    obtain ⟨h1, h2, h3, h4⟩ := hset
    refine ⟨?_, ?_, ?_, ?_⟩
    · have hb : ((w.netfsMountURLSync url none none).result == -6600 ||
          (w.netfsMountURLSync url none none).result == w.einval ||
          (w.netfsMountURLSync url none none).result == w.enotsup ||
          (w.netfsMountURLSync url none none).result == w.eauth) = false := by
        simp [beq_eq_false_iff_ne.mpr h1, beq_eq_false_iff_ne.mpr h2,
          beq_eq_false_iff_ne.mpr h3, beq_eq_false_iff_ne.mpr h4]
      simp only [mount_share]
      rw [beq_eq_false_iff_ne.mpr h0, hb]
      rfl
    · unfold mountErrMsg
      simpa [List.append_assoc] using
        containsSeq_append_mid (pstr "Error mounting url \"") url
          (pstr "\": " ++ w.strerror (w.netfsMountURLSync url none none).result ++
            pstr ", error " ++ intToPy (w.netfsMountURLSync url none none).result)
    · unfold mountErrMsg
      simpa [List.append_assoc] using
        containsSeq_append_mid
          (pstr "Error mounting url \"" ++ url ++ pstr "\": ")
          (w.strerror (w.netfsMountURLSync url none none).result)
          (pstr ", error " ++ intToPy (w.netfsMountURLSync url none none).result)
    · unfold mountErrMsg
      simpa [List.append_assoc] using
        containsSeq_append_mid
          (pstr "Error mounting url \"" ++ url ++ pstr "\": " ++
            w.strerror (w.netfsMountURLSync url none none).result ++ pstr ", error ")
          (intToPy (w.netfsMountURLSync url none none).result) []

/-- Claim C4, witness: in the world wC4 the native call reports code 5,
which is none of the authentication codes, so mount_share fails with the
ShareMountException whose message contains the URL, the error string
and the code. -/
theorem C4_mount_share_classification_witness :
    mount_share wC4 (pstr "smb://h/s") [] =
      (.error (.shareMountFailed (mountErrMsg wC4 (pstr "smb://h/s") 5)), []) ∧
    containsSeq (mountErrMsg wC4 (pstr "smb://h/s") 5) (pstr "smb://h/s") = true ∧
    containsSeq (mountErrMsg wC4 (pstr "smb://h/s") 5) (wC4.strerror 5) = true ∧
    containsSeq (mountErrMsg wC4 (pstr "smb://h/s") 5) (intToPy 5) = true := by
  have h := (C4_mount_share_classification wC4 (pstr "smb://h/s") []).2.2
    (by decide) (by decide)
  exact ⟨h.1, h.2.1, h.2.2.1, h.2.2.2⟩

/-- Claim C5: mount_share_url first tries the credential-less mount; it
returns its mount point on success, runs the interactive credential
flow exactly when the plain mount raised the authentication exception,
and propagates every other error unchanged. -/
theorem C5_mount_share_url_flow (w : World) (url : PStr) (fs : FS) :
    (∀ m fs2, mount_share w url fs = (.ok m, fs2) →
        mount_share_url w url fs = (.ok m, fs2)) ∧
    (∀ fs2, mount_share w url fs = (.error .shareAuthNeeded, fs2) →
        mount_share_url w url fs =
          mount_share_with_credentials w url w.rawInputLine w.getpassLine fs2) ∧
    (∀ e fs2, mount_share w url fs = (.error e, fs2) → e ≠ .shareAuthNeeded →
        mount_share_url w url fs = (.error e, fs2)) := by
  refine ⟨?_, ?_, ?_⟩
  · intro m fs2 h
    unfold mount_share_url
    rw [h]
  · intro fs2 h
    unfold mount_share_url
    rw [h]
  · intro e fs2 h hne
    unfold mount_share_url
    rw [h]
    cases e with
    | shareAuthNeeded => exact absurd rfl hne
    | shareMountFailed m => rfl
    | rootUnavailable => rfl
    | osError m => rfl
    | indexError => rfl

/-- Claim C5, witness: in wC5 the plain mount reports -6600, so the flow
prompts and retries with credentials, returning the credentialed mount
point rather than failing. -/
theorem C5_mount_share_url_flow_witness :
    mount_share wC5 (pstr "afp://s/v") [] = (.error .shareAuthNeeded, []) ∧
    mount_share_url wC5 (pstr "afp://s/v") [] =
      mount_share_with_credentials wC5 (pstr "afp://s/v")
        wC5.rawInputLine wC5.getpassLine [] ∧
    mount_share_url wC5 (pstr "afp://s/v") [] = (.ok (pstr "/Volumes/share"), []) := by
  refine ⟨rfl, ?_, rfl⟩
  exact (C5_mount_share_url_flow wC5 (pstr "afp://s/v") []).2.1 [] rfl

/-- Claim C2, counterexample: native mount available, mount fails with a
ShareMountException, the root /share does not exist; connect returns
normally (the except branch returns early), so no final existence check
is performed and no RootUnavailable failure is raised even though the
root is still missing. -/
theorem C2_missing_final_check_counterexample :
    (NewFileRepo.connect wSoft rSmb []).1 = Except.ok () ∧
    pathExists (NewFileRepo.connect wSoft rSmb []).2.2
      (NewFileRepo.connect wSoft rSmb []).2.1.root = false := by
  exact ⟨rfl, rfl⟩

/-- Claim C2 as amended: on a caught ShareMountException the native
branch of connect logs and returns immediately, skipping the final
existence check entirely; the final check (raising the RootUnavailable
failure on a missing root) runs only on the paths that do not return
early, for example after a successful native mount. -/
theorem C2_soft_fail_amended (w : World) (r : NewFileRepo) (fs : FS)
    (hava : w.netfsAvailable = true)
    (hex : pathExists fs r.root = false)
    (hsch : (r.url_scheme == pstr "file") = false) :
    (∀ e fs2, mount_share_url w r.baseurl fs = (.error e, fs2) →
        isShareMountErr e = true →
        NewFileRepo.connect w r fs = (.ok (), r, fs2)) ∧
    (∀ m fs2, mount_share_url w r.baseurl fs = (.ok m, fs2) →
        pathExists fs2 m = false →
        NewFileRepo.connect w r fs =
          (.error .rootUnavailable,
           { r with root := m, we_mounted_repo := true }, fs2)) := by
  constructor
  · intro e fs2 hm he
    simp only [NewFileRepo.connect, hex, hava, hsch, Bool.not_false, Bool.and_self,
      if_true]
    simp only [NewFileRepo.connectNative, hm, he, if_true]
  · intro m fs2 hm hex2
    simp only [NewFileRepo.connect, hex, hava, hsch, Bool.not_false, Bool.and_self,
      if_true]
    simp only [NewFileRepo.connectNative, hm]
    simp only [NewFileRepo.finalCheck, hex2, Bool.false_eq_true, if_false]

/-- Claim C2 amended, witness: the soft-failure early return observed in
wSoft (mount fails, root missing, connect returns ok), via the amended
theorem. -/
theorem C2_soft_fail_amended_witness :
    NewFileRepo.connect wSoft rSmb [] = (.ok (), rSmb, []) := by
  exact (C2_soft_fail_amended wSoft rSmb [] rfl rfl rfl).1
    (PyErr.shareMountFailed (mountErrMsg wSoft rSmb.baseurl (-1))) [] rfl rfl

theorem finalCheck_ok_exists (r r2 : NewFileRepo) (fs fs2 : FS)
    (h : NewFileRepo.finalCheck r fs = (.ok (), r2, fs2)) :
    pathExists fs2 r2.root = true := by
  simp only [NewFileRepo.finalCheck] at h
  split at h
  · simp only [Prod.mk.injEq] at h
    obtain ⟨-, h2, h3⟩ := h
    subst h2; subst h3
    assumption
  · simp at h

theorem runCmd_ok_exists (w : World) (r : NewFileRepo) (fs : FS) (cmd : List PStr)
    (r2 : NewFileRepo) (fs2 : FS)
    (h : NewFileRepo.runCmd w r fs cmd = (.ok (), r2, fs2)) :
    pathExists fs2 r2.root = true := by
  simp only [NewFileRepo.runCmd] at h
  split at h
  · exact finalCheck_ok_exists _ _ _ _ h
  · split at h
    · simp at h
    · exact finalCheck_ok_exists _ _ _ _ h

/-- Claim C3, counterexample: connect completes without raising (result
ok) on the native soft-failure path, yet the root does not exist on the
resulting filesystem. -/
theorem C3_root_missing_after_ok_counterexample :
    (NewFileRepo.connect wSoft3 rAfp []).1 = Except.ok () ∧
    pathExists (NewFileRepo.connect wSoft3 rAfp []).2.2
      (NewFileRepo.connect wSoft3 rAfp []).2.1.root = false := by
  exact ⟨rfl, rfl⟩

/-- Claim C3 as amended: when connect returns without raising, the root
exists at return, unless connect returned through one of the two
early-return paths that skip the final existence check: the caught
ShareMountException in the native branch, or the unsupported-scheme
branch of the external-command fallback. -/
theorem C3_connect_ok_root (w : World) (r r2 : NewFileRepo) (fs fs2 : FS)
    (h : NewFileRepo.connect w r fs = (.ok (), r2, fs2)) :
    pathExists fs2 r2.root = true ∨
    (w.netfsAvailable = true ∧
      ∃ e fs3, mount_share_url w r.baseurl fs = (.error e, fs3) ∧
        isShareMountErr e = true) ∨
    (w.netfsAvailable = false ∧ startswith r.baseurl (pstr "afp:") = false ∧
      startswith r.baseurl (pstr "smb:") = false ∧
      startswith r.baseurl (pstr "nfs://") = false) := by
  simp only [NewFileRepo.connect] at h
  split at h
  · split at h
    · rename_i hava
      simp only [NewFileRepo.connectNative] at h
      split at h
      · rename_i mp fs1 hm
        left
        exact finalCheck_ok_exists _ _ _ _ h
      · rename_i e fs1 hm
        split at h
        · rename_i he
          right; left
          exact ⟨hava, e, fs1, hm, he⟩
        · simp at h
    · rename_i hava
      rw [Bool.not_eq_true] at hava
      simp only [NewFileRepo.connectFallback] at h
      split at h
      · simp at h
      · rename_i fs1 hmk
        split at h
        · left
          exact runCmd_ok_exists _ _ _ _ _ _ h
        · split at h
          · left
            exact runCmd_ok_exists _ _ _ _ _ _ h
          · split at h
            · left
              exact runCmd_ok_exists _ _ _ _ _ _ h
            · rename_i hafp hsmb hnfs
              simp only [Prod.mk.injEq] at h
              obtain ⟨-, h2, h3⟩ := h
              right; right
              rw [Bool.not_eq_true] at hafp hsmb hnfs
              exact ⟨hava, hafp, hsmb, hnfs⟩
  · left
    exact finalCheck_ok_exists _ _ _ _ h

/-- Claim C3 amended, witness: a file-scheme repo whose root /repo
exists; connect returns normally and the root indeed exists at return
(the left disjunct of the amended statement). -/
theorem C3_connect_ok_root_witness :
    pathExists fsRepo rFile.root = true ∨
    (wSoft.netfsAvailable = true ∧
      ∃ e fs3, mount_share_url wSoft rFile.baseurl fsRepo = (.error e, fs3) ∧
        isShareMountErr e = true) ∨
    (wSoft.netfsAvailable = false ∧ startswith rFile.baseurl (pstr "afp:") = false ∧
      startswith rFile.baseurl (pstr "smb:") = false ∧
      startswith rFile.baseurl (pstr "nfs://") = false) :=
  C3_connect_ok_root wSoft rFile rFile fsRepo fsRepo rfl

/-- Claim C6, counterexample: for the URL smb://host/share the SMB tool
is invoked with argument //host/share, not host/share as the claim
states: in the world that accepts only the claimed argument host/share
the mount command fails and connect ends in the RootUnavailable error,
while in the world that accepts //host/share the command succeeds, the
mount is marked owned and connect returns normally. -/
theorem C6_smb_argument_counterexample :
    (NewFileRepo.connect wSmbClaim rSmb []).1 = Except.error PyErr.rootUnavailable ∧
    (NewFileRepo.connect wSmbActual rSmb []).1 = Except.ok () ∧
    (NewFileRepo.connect wSmbActual rSmb []).2.1.we_mounted_repo = true := by
  exact ⟨rfl, rfl, rfl⟩

/-- Claim C6 as amended: in the external-command fallback an afp: URL
invokes the AFP tool with the full original URL (after the -i flag); an
smb: URL invokes the SMB tool with the URL minus its four-character
scheme prefix smb: (so smb://host/share yields //host/share, keeping the
two slashes); an nfs:// URL invokes the NFS tool with the URL minus the
six-character prefix nfs:// (yielding host/share). -/
theorem C6_cmd_selection (w : World) (r : NewFileRepo) (fs : FS)
    (hava : w.netfsAvailable = false)
    (hex : pathExists fs r.root = false)
    (hsch : (r.url_scheme == pstr "file") = false)
    (fs1 : FS) (hmk : mkdirFS fs r.root = .ok fs1) :
    (startswith r.baseurl (pstr "afp:") = true →
        NewFileRepo.connect w r fs =
          NewFileRepo.runCmd w r fs1
            [pstr "/sbin/mount_afp", pstr "-i", r.baseurl, r.root]) ∧
    (startswith r.baseurl (pstr "smb:") = true →
        (NewFileRepo.connect w r fs =
          NewFileRepo.runCmd w r fs1
            [pstr "/sbin/mount_smbfs", r.baseurl.drop 4, r.root]) ∧
        ∀ t, r.baseurl = pstr "smb://" ++ t → r.baseurl.drop 4 = pstr "//" ++ t) ∧
    (startswith r.baseurl (pstr "nfs://") = true →
        (NewFileRepo.connect w r fs =
          NewFileRepo.runCmd w r fs1
            [pstr "/sbin/mount_nfs", r.baseurl.drop 6, r.root]) ∧
        ∀ t, r.baseurl = pstr "nfs://" ++ t → r.baseurl.drop 6 = t) := by
  have hcond : (!(pathExists fs r.root) && !(r.url_scheme == pstr "file")) = true := by
    rw [hex, hsch]; rfl
  refine ⟨?_, ?_, ?_⟩
  · intro hafp
    simp only [NewFileRepo.connect, hcond, hava, if_true, Bool.false_eq_true, if_false]
    simp only [NewFileRepo.connectFallback, hmk, hafp, if_true]
  · intro hsmb
    obtain ⟨t0, ht0⟩ := (startswith_iff _ _).mp hsmb
    have hafp : startswith r.baseurl (pstr "afp:") = false := by
      rw [ht0]
      show (('s' == 'a') && startswith (pstr "mb:" ++ t0) (pstr "fp:")) = false
      rw [show (('s' : Char) == 'a') = false from rfl, Bool.false_and]
    constructor
    · simp only [NewFileRepo.connect, hcond, hava, if_true, Bool.false_eq_true, if_false]
      simp only [NewFileRepo.connectFallback, hmk, hafp, Bool.false_eq_true, if_false,
        hsmb, if_true]
    · intro t ht
      rw [ht]
      rfl
  · intro hnfs
    obtain ⟨t0, ht0⟩ := (startswith_iff _ _).mp hnfs
    have hafp : startswith r.baseurl (pstr "afp:") = false := by
      rw [ht0]
      show (('n' == 'a') && startswith (pstr "fs://" ++ t0) (pstr "fp:")) = false
      rw [show (('n' : Char) == 'a') = false from rfl, Bool.false_and]
    have hsmb : startswith r.baseurl (pstr "smb:") = false := by
      rw [ht0]
      show (('n' == 's') && startswith (pstr "fs://" ++ t0) (pstr "mb:")) = false
      rw [show (('n' : Char) == 's') = false from rfl, Bool.false_and]
    constructor
    · simp only [NewFileRepo.connect, hcond, hava, if_true, Bool.false_eq_true, if_false]
      simp only [NewFileRepo.connectFallback, hmk, hafp, hsmb, Bool.false_eq_true,
        if_false, hnfs, if_true]
    · intro t ht
      rw [ht]
      rfl

/-- Claim C6 amended, witness at smb://host2/vol: connect reaches the
SMB tool invocation with argument //host2/vol. -/
theorem C6_cmd_selection_witness :
    NewFileRepo.connect wFb rSmb2 [] =
      NewFileRepo.runCmd wFb rSmb2 [(pstr "vol", FSEntry.dir [])]
        [pstr "/sbin/mount_smbfs", rSmb2.baseurl.drop 4, rSmb2.root] ∧
    rSmb2.baseurl.drop 4 = pstr "//" ++ pstr "host2/vol" := by
  have h := (C6_cmd_selection wFb rSmb2 [] rfl rfl rfl
    [(pstr "vol", FSEntry.dir [])] rfl).2.1 rfl
  exact ⟨h.1, h.2 (pstr "host2/vol") rfl⟩

/-- Claim C7, counterexample: in the fallback with a failing mount
command, the created directory /repo is removed, but the operation does
not fail with MountFailed (a ShareMountException): it raises the
RootUnavailable error of the final existence check instead. -/
theorem C7_fallback_error_kind_counterexample :
    (NewFileRepo.connect wC7 rNfs []).1 = Except.error PyErr.rootUnavailable ∧
    isMountFailedErr PyErr.rootUnavailable = false ∧
    pathExists (NewFileRepo.connect wC7 rNfs []).2.2 rNfs.root = false := by
  exact ⟨rfl, rfl, rfl⟩

/-- Claim C7 as amended: in the shared tail of the external-command
fallback, a nonzero exit code removes the candidate directory and the
operation then fails with the RootUnavailable error raised by the final
existence check (not with a MountFailed ShareMountException, which this
path never constructs); a zero exit code marks the mount as owned. -/
theorem C7_runCmd_amended (w : World) (r : NewFileRepo) (fs : FS) (cmd : List PStr) :
    (∀ rc eff, w.subprocessCall cmd = (rc, eff) → (rc == 0) = false →
        ∀ fs3, rmdirFS (eff fs) r.root = .ok fs3 → pathExists fs3 r.root = false →
          NewFileRepo.runCmd w r fs cmd = (.error PyErr.rootUnavailable, r, fs3)) ∧
    (∀ eff, w.subprocessCall cmd = (0, eff) →
        (NewFileRepo.runCmd w r fs cmd).2.1.we_mounted_repo = true) := by
  constructor
  · intro rc eff hcall hrc fs3 hrm hex
    simp only [NewFileRepo.runCmd, hcall, hrc, Bool.false_eq_true, if_false, hrm]
    simp only [NewFileRepo.finalCheck, hex, Bool.false_eq_true, if_false]
  · intro eff hcall
    simp only [NewFileRepo.runCmd, hcall]
    have h0 : ((0 : Int) == 0) = true := rfl
    simp only [h0, if_true]
    simp only [NewFileRepo.finalCheck]
    split <;> rfl

/-- Claim C7 amended, witness: a failing command in world wC7 on the
created directory /vol: the directory is removed and runCmd returns the
RootUnavailable error. -/
theorem C7_runCmd_amended_witness :
    NewFileRepo.runCmd wC7 rSmb2 [(pstr "vol", FSEntry.dir [])]
      [pstr "/sbin/mount_smbfs", rSmb2.baseurl.drop 4, rSmb2.root] =
      (.error PyErr.rootUnavailable, rSmb2, []) := by
  exact (C7_runCmd_amended wC7 rSmb2 [(pstr "vol", FSEntry.dir [])]
      [pstr "/sbin/mount_smbfs", rSmb2.baseurl.drop 4, rSmb2.root]).1
    1 idFS rfl rfl [] rfl rfl

/-- Claim C8: when root/kind resolves to a directory (with usable entry
names), itemlist returns exactly the relative paths of the regular files
under it — a permutation of the structurally computed list, every
element free of a leading separator; when root/kind does not resolve,
itemlist returns the empty list (and, being a total function, never
fails). -/
theorem C8_itemlist_spec (r : NewFileRepo) (kind : PStr) (fs : FS)
    (hsd1 : ospathjoin r.root kind ≠ [])
    (hsd2 : endswithSlash (ospathjoin r.root kind) = false) :
    (∀ cs, lookupE (FSEntry.dir fs) (comps (ospathjoin r.root kind)) =
          some (FSEntry.dir cs) →
        wfL cs = true →
        ((NewFileRepo.itemlist r kind fs).1.Perm (relFiles cs) ∧
         ∀ p ∈ (NewFileRepo.itemlist r kind fs).1,
           startswith p (pstr "/") = false)) ∧
    (lookupE (FSEntry.dir fs) (comps (ospathjoin r.root kind)) = none →
        (NewFileRepo.itemlist r kind fs).1 = []) := by
  constructor
  · intro cs hlk hwf
    constructor
    · have hperm := extract_walkDir (ospathjoin r.root kind) hsd1 hsd2 [] relOk_nil cs hwf
      rw [joinRel_nil, map_prependRel_nil] at hperm
      simp only [NewFileRepo.itemlist, pyWalk, hlk]
      exact hperm
    · intro p hp
      simp only [NewFileRepo.itemlist] at hp
      exact extractFiles_no_lead _ _ p hp
  · intro hlk
    simp only [NewFileRepo.itemlist, pyWalk, hlk]
    rfl

/-- Claim C8, witness: on the sample repository, itemlist of manifests
is a permutation of the relative file paths of the sample tree
(site_default, top2, apps/x, apps/y in some order). -/
theorem C8_itemlist_spec_witness :
    (NewFileRepo.itemlist rFile (pstr "manifests") fsA).1.Perm (relFiles csA) := by
  exact ((C8_itemlist_spec rFile (pstr "manifests") fsA (by decide) (by decide)).1
    csA (by rfl) (by simp [csA, wfL, goodNameB]; decide)).1

/-- Claim C9: whenever put succeeds (creating any missing intermediate
directories), a following get of the same resource identifier returns
exactly the stored content. -/
theorem C9_put_get_roundtrip (r : NewFileRepo) (resource_identifier content : PStr)
    (fs : FS) (h : (NewFileRepo.put r resource_identifier content fs).1 = .ok ()) :
    (NewFileRepo.get r resource_identifier
        (NewFileRepo.put r resource_identifier content fs).2.2).1 = .ok content := by
  simp only [NewFileRepo.put] at h ⊢
  split at h
  · simp at h
  · rename_i fs1 hmade
    split at h
    · simp at h
    · rename_i fs2 hw
      simp only [NewFileRepo.get]
      exact readIn_writeIn _ _ _ _ hw

/-- Claim C9, witness: storing DATA under manifests/new/thing (the
directory new is created) and reading it back returns DATA. -/
theorem C9_put_get_roundtrip_witness :
    (NewFileRepo.put rFile (pstr "manifests/new/thing") (pstr "DATA") fsA).1 =
      .ok () ∧
    (NewFileRepo.get rFile (pstr "manifests/new/thing")
        (NewFileRepo.put rFile (pstr "manifests/new/thing")
          (pstr "DATA") fsA).2.2).1 = .ok (pstr "DATA") :=
  ⟨rfl, C9_put_get_roundtrip rFile (pstr "manifests/new/thing") (pstr "DATA") fsA rfl⟩

/-- Claim C10: none of the six item operations changes any instance
field: the repository record is returned unchanged by itemlist, get,
get_to_local_file, put, put_from_local_file and delete, whether the
operation succeeds or fails; in the embedding only connect produces a
modified record. -/
theorem C10_item_ops_frame (r : NewFileRepo)
    (kind resource_identifier content local_file_path : PStr) (fs : FS) :
    (NewFileRepo.itemlist r kind fs).2.1 = r ∧
    (NewFileRepo.get r resource_identifier fs).2.1 = r ∧
    (NewFileRepo.get_to_local_file r resource_identifier local_file_path fs).2.1 = r ∧
    (NewFileRepo.put r resource_identifier content fs).2.1 = r ∧
    (NewFileRepo.put_from_local_file r resource_identifier local_file_path fs).2.1 = r ∧
    (NewFileRepo.delete r resource_identifier fs).2.1 = r := by
  refine ⟨rfl, rfl, ?_, ?_, ?_, ?_⟩
  · simp only [NewFileRepo.get_to_local_file]
    split
    · rfl
    · split <;> rfl
  · simp only [NewFileRepo.put]
    split
    · rfl
    · split <;> rfl
  · simp only [NewFileRepo.put_from_local_file]
    split
    · rfl
    · split
      · rfl
      · split <;> rfl
  · simp only [NewFileRepo.delete]
    split <;> rfl
